import Mathlib

/-!
Verification development for the theatre repository.

We give a shallow embedding of the parts of the code that the claims are
about:

* `src/shared/DataVerse/atoms/dict.tsx` — the `DictAtom` composite atom.
* `src/shared/utils/redux/wrapRootReducer.tsx` — the root-reducer wrapper.
* `src/lb/statePersistor/sagas.tsx` — the state-persistence sagas.
* `theatre/core/src/propTypes/index.ts` — the prop-type constructors.

JavaScript runtime values are modelled by the inductive type `JSVal`.
JS numbers are modelled as exact integers plus the three non-finite
values (`NaN`, `Infinity`, `-Infinity`); every number the claims construct
or compute with is an integer, so the binary-floating-point nature of JS
numbers is immaterial here.  Objects are insertion-ordered association
lists of string keys (JS objects never hold duplicate keys; operations
below preserve that, mirroring JS assignment/`delete` semantics).
-/

inductive JSNum where
  | fin (q : ℤ)
  | nan
  | posInf
  | negInf
deriving DecidableEq

mutual

inductive JSVal where
  | undefined
  | null
  | bool (b : Bool)
  | num (n : JSNum)
  | str (s : String)
  | obj (fields : JSFields)
  | arr (elems : JSList)
deriving DecidableEq

/-- Fields of a JS object, in insertion order. -/
inductive JSFields where
  | nil
  | cons (k : String) (v : JSVal) (rest : JSFields)
deriving DecidableEq

/-- Elements of a JS array. -/
inductive JSList where
  | nil
  | cons (v : JSVal) (rest : JSList)
deriving DecidableEq

end

def JSFields.ofList : List (String × JSVal) → JSFields
  | [] => .nil
  | (k, v) :: rest => .cons k v (JSFields.ofList rest)

def JSFields.toList : JSFields → List (String × JSVal)
  | .nil => []
  | .cons k v rest => (k, v) :: rest.toList

def JSList.ofList : List JSVal → JSList
  | [] => .nil
  | v :: rest => .cons v (JSList.ofList rest)

def JSList.toList : JSList → List JSVal
  | .nil => []
  | .cons v rest => v :: rest.toList

/-- Convenience constructor for an object literal. -/
def JSVal.mkObj (l : List (String × JSVal)) : JSVal :=
  .obj (JSFields.ofList l)

/-- Convenience constructor for an array literal. -/
def JSVal.mkArr (l : List JSVal) : JSVal :=
  .arr (JSList.ofList l)

theorem JSFields.toList_ofList (l : List (String × JSVal)) :
    (JSFields.ofList l).toList = l := by
  induction l with
  | nil => rfl
  | cons kv rest ih => cases kv; simp [JSFields.ofList, JSFields.toList, ih]

/-- The JS `typeof` operator. -/
def JSVal.typeof : JSVal → String
  | .undefined => "undefined"
  | .null => "object"
  | .bool _ => "boolean"
  | .num _ => "number"
  | .str _ => "string"
  | .obj _ => "object"
  | .arr _ => "object"

/-- JS truthiness. -/
def JSVal.truthy : JSVal → Bool
  | .undefined => false
  | .null => false
  | .bool b => b
  | .num (.fin q) => q ≠ 0
  | .num .nan => false
  | .num .posInf => true
  | .num .negInf => true
  | .str s => s ≠ ""
  | .obj _ => true
  | .arr _ => true

/-- `typeof v === 'number' && isFinite(v)`. -/
def JSVal.isFiniteNumber : JSVal → Bool
  | .num (.fin _) => true
  | _ => false

/-- JS `a || b`. -/
def jsOr (a b : JSVal) : JSVal :=
  if a.truthy then a else b

/-!
### Association-list operations

These model JS objects' own-property operations (`hasOwnProperty`, member
read, member assignment, `delete`) on insertion-ordered key/value lists.
They are polymorphic in the value type so they also serve the
`stringLiteral` options record (string values).
-/

def aHasKey {α : Type} : List (String × α) → String → Bool
  | [], _ => false
  | (k', _) :: rest, k => k' == k || aHasKey rest k

def aLookup {α : Type} : List (String × α) → String → Option α
  | [], _ => none
  | (k', v') :: rest, k => if k' == k then some v' else aLookup rest k

/-- Member read, `undefined` for an absent key. -/
def aGet (l : List (String × JSVal)) (k : String) : JSVal :=
  (aLookup l k).getD .undefined

/-- Member assignment: replaces in place if the key exists, appends otherwise
(JS insertion-order semantics). -/
def aSet {α : Type} : List (String × α) → String → α → List (String × α)
  | [], k, v => [(k, v)]
  | (k', v') :: rest, k, v =>
    if k' == k then (k', v) :: rest else (k', v') :: aSet rest k v

/-- JS `delete`. -/
def aRemove {α : Type} (l : List (String × α)) (k : String) : List (String × α) :=
  l.filter (fun kv => kv.1 ≠ k)

/-- Own fields of a JS value when read as an object; non-objects have none. -/
def JSVal.objFields : JSVal → List (String × JSVal)
  | .obj fs => fs.toList
  | _ => []

/-- The own enumerable entries a value contributes when spread into an object
literal: an object contributes its fields, an array/string its indexed
entries, primitives contribute nothing. -/
def JSVal.spreadEntries : JSVal → List (String × JSVal)
  | .obj fs => fs.toList
  | .arr es => (es.toList.enum).map (fun p => (toString p.1, p.2))
  | .str s => (s.toList.enum).map (fun p => (toString p.1, .str (String.singleton p.2)))
  | _ => []

def spreadInto (base : List (String × JSVal)) (v : JSVal) : List (String × JSVal) :=
  v.spreadEntries.foldl (fun acc kv => aSet acc kv.1 kv.2) base

/-- The object literal `{...a, ...b}`. -/
def objSpread2 (a b : JSVal) : JSVal :=
  .obj (.ofList (spreadInto (spreadInto [] a) b))

/-- lodash `get` along a path of string keys (`undefined` when absent).  All
paths in this repository address object fields. -/
def JSVal.getPath : JSVal → List String → JSVal
  | v, [] => v
  | v, k :: rest => JSVal.getPath (aGet v.objFields k) rest

/-- lodash `hasIn` along a path of string keys. -/
def JSVal.hasPath : JSVal → List String → Bool
  | _, [] => true
  | v, k :: rest => aHasKey v.objFields k && JSVal.hasPath (aGet v.objFields k) rest

/-- lodash `fp.update`: clone along the path, apply `f` to the value found at
the path (`undefined` when absent), creating nested objects as needed.  Every
use in this repository has a non-empty path; the `[]` case applies `f`
directly. -/
def JSVal.updatePath : List String → (JSVal → JSVal) → JSVal → JSVal
  | [], f, v => f v
  | k :: rest, f, v =>
    .obj (.ofList (aSet v.objFields k (JSVal.updatePath rest f (aGet v.objFields k))))

/-- lodash `pick(v, keys)` with a list of (string) keys, as used by the
`resetStateAction` branch: keeps the listed own properties, in the order the
keys are listed.  Non-string keys do not occur in this repository's calls. -/
def pickKeys (v : JSVal) (ks : List JSVal) : List (String × JSVal) :=
  ks.filterMap (fun kv =>
    match kv with
    | .str k => (aLookup v.objFields k).map (fun x => (k, x))
    | _ => none)

/-- lodash `pick(v, paths)` with deep (list-of-keys) paths, as used by the
persistence saga: each present path is copied into a fresh nested object. -/
def pickPaths (paths : List (List String)) (v : JSVal) : JSVal :=
  paths.foldl
    (fun acc p => if v.hasPath p then JSVal.updatePath p (fun _ => v.getPath p) acc else acc)
    (.obj .nil)

/-!
### `DictAtom` (src/shared/DataVerse/atoms/dict.tsx)

The atom's observable side is modelled explicitly: `hasTappers` says whether
the change emitter has at least one registered listener, `emitted` logs every
event the emitter has fired (oldest first), and `adopted`/`unadopted` log the
`_adopt`/`_unadopt` calls made against `AbstractCompositeAtom` (whose
internals the claims do not depend on).
-/

structure ChangeEvent where
  overriddenRefs : List (String × JSVal)
  deletedKeys : List String
  addedKeys : List String
deriving DecidableEq

structure DictAtom where
  internalMap : List (String × JSVal)
  hasTappers : Bool
  emitted : List ChangeEvent
  adopted : List (String × JSVal)
  unadopted : List (String × JSVal)
deriving DecidableEq

namespace DictAtom

/-- `prop(key)`: own-property check, then member read; `undefined` otherwise. -/
def prop (a : DictAtom) (k : String) : JSVal :=
  if aHasKey a.internalMap k then aGet a.internalMap k else .undefined

/-- `_change(o, keysToDelete)`, translated line by line from the source.
Note that the event passed to the emitter carries `o` itself in its
`overriddenRefs` field (source line `overriddenRefs: o`), not the locally
computed `overriddenRefs` map of previous values. -/
def change (a : DictAtom) (o : List (String × JSVal)) (keysToDelete : List String) :
    DictAtom :=
  let addedKeys : List String :=
    (o.filter (fun kv => !aHasKey a.internalMap kv.1)).map Prod.fst
  let overriddenRefs0 : List (String × JSVal) :=
    o.map (fun kv => (kv.1, a.prop kv.1))
  let overriddenRefs : List (String × JSVal) :=
    keysToDelete.foldl (fun acc k => aSet acc k (a.prop k)) overriddenRefs0
  let unadopted' : List (String × JSVal) :=
    a.unadopted ++ overriddenRefs.filter (fun kv => kv.2.truthy)
  let map1 : List (String × JSVal) :=
    keysToDelete.foldl (fun m k => aRemove m k) a.internalMap
  let map2 : List (String × JSVal) :=
    o.foldl (fun m kv => aSet m kv.1 kv.2) map1
  let emitted' : List ChangeEvent :=
    if a.hasTappers then
      a.emitted ++ [{ overriddenRefs := o, deletedKeys := keysToDelete, addedKeys := addedKeys }]
    else a.emitted
  { internalMap := map2
    hasTappers := a.hasTappers
    emitted := emitted'
    adopted := a.adopted ++ o
    unadopted := unadopted' }

/-- `assign(o)`. -/
def assign (a : DictAtom) (o : List (String × JSVal)) : DictAtom :=
  a.change o []

/-- `deleteProp(key)`. -/
def deleteProp (a : DictAtom) (k : String) : DictAtom :=
  a.change [] [k]

/-- `setProp(key, value)`. -/
def setProp (a : DictAtom) (k : String) (v : JSVal) : DictAtom :=
  a.assign [(k, v)]

/-- `keys()`. -/
def keys (a : DictAtom) : List String :=
  a.internalMap.map Prod.fst

/-- Registering a listener on the change emitter. -/
def tap (a : DictAtom) : DictAtom :=
  { a with hasTappers := true }

end DictAtom

/-- The `dict(o)` constructor: `_assignInitialValue` writes and adopts each
entry of the initial mapping; the change emitter is never touched (and has no
tappers yet). -/
def dictAtom (o : List (String × JSVal)) : DictAtom :=
  { internalMap := o.foldl (fun m kv => aSet m kv.1 kv.2) []
    hasTappers := false
    emitted := []
    adopted := o
    unadopted := [] }

/-! Association-list lemmas used by the `DictAtom` claims. -/

theorem aSet_of_not_hasKey {α : Type} (l : List (String × α)) (k : String) (v : α)
    (h : aHasKey l k = false) : aSet l k v = l ++ [(k, v)] := by
  induction l with
  | nil => rfl
  | cons kv rest ih =>
    obtain ⟨k', v'⟩ := kv
    simp only [aHasKey, Bool.or_eq_false_iff] at h
    simp [aSet, h.1, ih h.2]

theorem aHasKey_append {α : Type} (l₁ l₂ : List (String × α)) (k : String) :
    aHasKey (l₁ ++ l₂) k = (aHasKey l₁ k || aHasKey l₂ k) := by
  induction l₁ with
  | nil => simp [aHasKey]
  | cons kv rest ih =>
    obtain ⟨k', v'⟩ := kv
    simp [aHasKey, ih, Bool.or_assoc]

theorem foldl_aSet_fresh {α : Type} (l acc : List (String × α))
    (hnd : (l.map Prod.fst).Nodup)
    (hfresh : ∀ k, k ∈ l.map Prod.fst → aHasKey acc k = false) :
    l.foldl (fun m kv => aSet m kv.1 kv.2) acc = acc ++ l := by
  induction l generalizing acc with
  | nil => simp
  | cons kv rest ih =>
    obtain ⟨k, v⟩ := kv
    simp only [List.map_cons, List.nodup_cons] at hnd
    have hk : aHasKey acc k = false := hfresh k (by simp)
    have hfresh' : ∀ k', k' ∈ rest.map Prod.fst → aHasKey (acc ++ [(k, v)]) k' = false := by
      intro k' hk'
      have hk'acc : aHasKey acc k' = false := hfresh k' (by simp [hk'])
      have hne : (k == k') = false := by
        simp only [beq_eq_false_iff_ne, ne_eq]
        rintro rfl
        exact hnd.1 hk'
      simp [aHasKey_append, aHasKey, hk'acc, hne]
    simp only [List.foldl_cons]
    rw [aSet_of_not_hasKey acc k v hk, ih (acc ++ [(k, v)]) hnd.2 hfresh']
    simp

theorem aLookup_eq_of_mem {α : Type} (l : List (String × α)) (k : String) (v : α)
    (hmem : (k, v) ∈ l) (hnd : (l.map Prod.fst).Nodup) :
    aLookup l k = some v := by
  induction l with
  | nil => simp at hmem
  | cons kv rest ih =>
    obtain ⟨k', v'⟩ := kv
    simp only [List.map_cons, List.nodup_cons] at hnd
    rcases List.mem_cons.mp hmem with h | h
    · rw [show k = k' from congrArg Prod.fst h, show v = v' from congrArg Prod.snd h]
      simp [aLookup]
    · have hbeq : (k' == k) = false := by
        simp only [beq_eq_false_iff_ne, ne_eq]
        rintro rfl
        exact hnd.1 (List.mem_map.mpr ⟨(k', v), h, rfl⟩)
      simp only [aLookup, hbeq, if_false]
      exact ih h hnd.2

theorem aHasKey_of_mem {α : Type} (l : List (String × α)) (k : String) (v : α)
    (hmem : (k, v) ∈ l) : aHasKey l k = true := by
  induction l with
  | nil => simp at hmem
  | cons kv rest ih =>
    obtain ⟨k', v'⟩ := kv
    rcases List.mem_cons.mp hmem with h | h
    · rw [show k = k' from congrArg Prod.fst h]
      simp [aHasKey]
    · simp [aHasKey, ih h]

theorem dictAtom_internalMap (o : List (String × JSVal))
    (hnd : (o.map Prod.fst).Nodup) : (dictAtom o).internalMap = o := by
  have := foldl_aSet_fresh o [] hnd (fun k _ => rfl)
  simpa [dictAtom] using this

/-- Claim C10: constructing a `DictAtom` from an initial mapping `o` adopts
each entry without emitting any change event; immediately after construction,
`prop k` returns `o[k]` for every key `k` of `o`, and `keys()` returns
exactly the keys of `o`. -/
theorem C10_dict_construction (o : List (String × JSVal))
    (hnd : (o.map Prod.fst).Nodup) :
    (dictAtom o).emitted = [] ∧
    (dictAtom o).adopted = o ∧
    (dictAtom o).keys = o.map Prod.fst ∧
    ∀ k v, (k, v) ∈ o → (dictAtom o).prop k = v := by
  refine ⟨rfl, rfl, ?_, ?_⟩
  · simp [DictAtom.keys, dictAtom_internalMap o hnd]
  · intro k v hmem
    have hmap := dictAtom_internalMap o hnd
    have hhas : aHasKey o k = true := aHasKey_of_mem o k v hmem
    simp only [DictAtom.prop, hmap, hhas, if_true]
    simp [aGet, aLookup_eq_of_mem o k v hmem hnd]

theorem C10_dict_construction_witness :
    (dictAtom [("a", .num (.fin 1)), ("b", .str "s")]).emitted = [] ∧
    (dictAtom [("a", .num (.fin 1)), ("b", .str "s")]).keys = ["a", "b"] ∧
    (dictAtom [("a", .num (.fin 1)), ("b", .str "s")]).prop "a" = .num (.fin 1) := by
  have h := C10_dict_construction [("a", .num (.fin 1)), ("b", .str "s")] (by decide)
  exact ⟨h.1, h.2.2.1, h.2.2.2 "a" (.num (.fin 1)) (by decide)⟩

/-- Claim C1 (failing input): a `DictAtom` holding `{a: 1}` with one
registered listener; calling `assign({a: 2})` emits one change event, but the
event's `overriddenRefs` is the assign partial `{a: 2}` itself (the new
value) — the source's `_change` passes `o` to the emitter — even though the
value the atom held for `"a"` before the call was `1`. -/
theorem C1_dict_assign_emits_partial_as_overriddenRefs :
    ((dictAtom [("a", .num (.fin 1))]).tap.assign [("a", .num (.fin 2))]).emitted =
      [{ overriddenRefs := [("a", .num (.fin 2))], deletedKeys := [], addedKeys := [] }] ∧
    (dictAtom [("a", .num (.fin 1))]).tap.prop "a" = .num (.fin 1) := by
  constructor <;> rfl

/-!
### `wrapRootReducer` (src/shared/utils/redux/wrapRootReducer.tsx)

Actions are JS objects `{type, payload}`.  The payload of
`multiReduceStateAction` is an array of `{path, reducer}` records whose
`reducer` fields are JS functions; functions have no `JSVal` image, so the
payload is modelled as either a plain JS value or a list of such pair
records.  Every claim dispatches object actions, so the wrapper's outer
`typeof action === 'object' && action !== null` guard (whose failure merely
delegates to the inner reducer) is satisfied by construction here.
The concrete action type tags are created in `commonActions.tsx` (not under
src/); only their distinctness matters to the wrapper.
-/

structure MRPair where
  path : List String
  reducer : JSVal → JSVal

inductive ActionPayload where
  | js (v : JSVal)
  | pairs (ps : List MRPair)

structure ReduxAction where
  type : String
  payload : ActionPayload

def mergeStateActionType : String := "mergeState"
def setStateActionType : String := "setState"
def resetStateActionType : String := "resetState"
def multiReduceStateActionType : String := "multiReduceState"

/-- `action.payload !== null && typeof action.payload === 'object'`.  A pairs
array is a non-null object in JS. -/
def ActionPayload.isNonNullObject : ActionPayload → Bool
  | .js v => v != .null && v.typeof == "object"
  | .pairs _ => true

/-- `Array.isArray(action.payload)`. -/
def ActionPayload.isArray : ActionPayload → Bool
  | .js (.arr _) => true
  | .js _ => false
  | .pairs _ => true

/-- The state guard shared (verbatim) by the `mergeStateAction` and
`resetStateAction` branches:
`!(state !== null && typeof state === 'object') || typeof state === 'undefined'`.
When it is `true` the wrapper throws. -/
def stateGuardFails (state : JSVal) : Bool :=
  !(state != .null && state.typeof == "object") || state.typeof == "undefined"

/-- The wrapped reducer.  Throwing is modelled by `Except.error`.  The two
`.pairs`-payload corners inside the `mergeState`/`setState`/`resetState`
branches are unreachable in every claim (a pairs payload only ever travels
with `multiReduceStateAction`); since pair records hold meta-level functions
with no `JSVal` image, those corners contribute no payload entries /
return `undefined`. -/
def wrapRootReducer (reducer : JSVal → ReduxAction → JSVal)
    (state : JSVal) (action : ReduxAction) : Except String JSVal :=
  if action.type == mergeStateActionType then
    if !action.payload.isNonNullObject then
      .error "mergeStateAction payload must only be an object"
    else if stateGuardFails state then
      .error "when dispatching a mergeStateAction, the initial state must either be an object or void"
    else
      match action.payload with
      | .js p => .ok (objSpread2 (jsOr state (.mkObj [])) p)
      | .pairs _ => .ok (objSpread2 (jsOr state (.mkObj [])) (.obj .nil))
  else if action.type == setStateActionType then
    match action.payload with
    | .js v => .ok v
    | .pairs _ => .ok .undefined
  else if action.type == resetStateActionType then
    let initialState := reducer .undefined action
    if stateGuardFails state then
      .error "when dispatching a resetStateAction, the initial state must either be an object or void"
    else if action.payload.isArray then
      match action.payload with
      | .js (.arr ks) =>
        .ok (objSpread2 (jsOr state (.mkObj [])) (.mkObj (pickKeys initialState ks.toList)))
      | _ => .ok (objSpread2 (jsOr state (.mkObj [])) (.mkObj []))
    else
      .ok initialState
  else if action.type == multiReduceStateActionType then
    match action.payload with
    | .pairs ps =>
      .ok (ps.foldl (fun acc pair => JSVal.updatePath pair.path pair.reducer acc) state)
    | .js _ => .ok state
  else
    .ok (reducer state action)

/-- Whether the wrapped reducer threw. -/
def reducerThrew (e : Except String JSVal) : Bool :=
  match e with
  | .error _ => true
  | .ok _ => false

/-! Supporting lemmas about member assignment and spreads. -/

theorem aLookup_aSet {α : Type} (l : List (String × α)) (k k' : String) (v : α) :
    aLookup (aSet l k v) k' = if k == k' then some v else aLookup l k' := by
  induction l with
  | nil => simp [aSet, aLookup]
  | cons kv rest ih =>
    obtain ⟨k₀, v₀⟩ := kv
    simp only [aSet]
    by_cases h0 : k₀ = k
    · subst h0
      simp only [beq_self_eq_true, if_true, aLookup]
      by_cases h1 : k₀ = k'
      · subst h1; simp
      · have hb1 : (k₀ == k') = false := beq_eq_false_iff_ne.mpr h1
        simp [aLookup, hb1]
    · have hb0 : (k₀ == k) = false := beq_eq_false_iff_ne.mpr h0
      simp only [hb0, Bool.false_eq_true, if_false, aLookup]
      by_cases h1 : k₀ = k'
      · subst h1
        have hb2 : (k == k₀) = false := beq_eq_false_iff_ne.mpr (Ne.symm h0)
        simp [aLookup, hb2]
      · have hb1 : (k₀ == k') = false := beq_eq_false_iff_ne.mpr h1
        simp [aLookup, hb1, ih]

theorem exists_mem_of_aHasKey {α : Type} (l : List (String × α)) (k : String)
    (h : aHasKey l k = true) : ∃ p : String × α, p ∈ l ∧ p.1 = k := by
  induction l with
  | nil => simp [aHasKey] at h
  | cons kv rest ih =>
    obtain ⟨k₀, v₀⟩ := kv
    simp only [aHasKey, Bool.or_eq_true] at h
    rcases h with h | h
    · exact ⟨(k₀, v₀), by simp, by simpa using h⟩
    · obtain ⟨p, hp, hpk⟩ := ih h
      exact ⟨p, by simp [hp], hpk⟩

theorem foldl_aSet_lookup_skip {α : Type} (l base : List (String × α)) (k : String)
    (h : aHasKey l k = false) :
    aLookup (l.foldl (fun acc kv => aSet acc kv.1 kv.2) base) k = aLookup base k := by
  induction l generalizing base with
  | nil => rfl
  | cons kv rest ih =>
    obtain ⟨k₀, v₀⟩ := kv
    simp only [aHasKey, Bool.or_eq_false_iff] at h
    simp only [List.foldl_cons]
    rw [ih (aSet base k₀ v₀) h.2, aLookup_aSet, h.1]
    simp

theorem foldl_aSet_lookup_mem {α : Type} (l base : List (String × α)) (k : String) (v : α)
    (hnd : (l.map Prod.fst).Nodup) (hmem : (k, v) ∈ l) :
    aLookup (l.foldl (fun acc kv => aSet acc kv.1 kv.2) base) k = some v := by
  induction l generalizing base with
  | nil => simp at hmem
  | cons kv rest ih =>
    obtain ⟨k₀, v₀⟩ := kv
    simp only [List.map_cons, List.nodup_cons] at hnd
    rcases List.mem_cons.mp hmem with h | h
    · rw [show k = k₀ from congrArg Prod.fst h, show v = v₀ from congrArg Prod.snd h]
      simp only [List.foldl_cons]
      have hnk : aHasKey rest k₀ = false := by
        cases hh : aHasKey rest k₀ with
        | false => rfl
        | true =>
          obtain ⟨p, hp, hpk⟩ := exists_mem_of_aHasKey rest k₀ hh
          exact absurd (List.mem_map.mpr ⟨p, hp, hpk⟩) hnd.1
      rw [foldl_aSet_lookup_skip rest (aSet base k₀ v₀) k₀ hnk, aLookup_aSet]
      simp
    · simp only [List.foldl_cons]
      exact ih (aSet base k₀ v₀) hnd.2 h

theorem stateGuardFails_obj (fs : JSFields) : stateGuardFails (.obj fs) = false := by
  simp [stateGuardFails, JSVal.typeof]

theorem jsOr_obj (fs : JSFields) (b : JSVal) : jsOr (.obj fs) b = .obj fs := by
  simp [jsOr, JSVal.truthy]

/-- Claim C2 (failing input): dispatching `mergeStateAction({z: 3})` against
the ordinary examples behaves as claimed (merge for an object state, throw
for the number 5), but against an `undefined` state the wrapper throws —
even though the error message it throws with says the state "must either be
an object or void" — because the guard
`!(state !== null && typeof state === 'object') || typeof state === 'undefined'`
is satisfied by `undefined`. -/
theorem C2_mergeState_undefined_state_throws :
    reducerThrew (wrapRootReducer (fun s _ => s) .undefined
      ⟨mergeStateActionType, .js (.mkObj [("z", .num (.fin 3))])⟩) = true ∧
    wrapRootReducer (fun s _ => s) (.mkObj [("x", .num (.fin 1))])
      ⟨mergeStateActionType, .js (.mkObj [("z", .num (.fin 3))])⟩ =
      .ok (.mkObj [("x", .num (.fin 1)), ("z", .num (.fin 3))]) ∧
    reducerThrew (wrapRootReducer (fun s _ => s) (.num (.fin 5))
      ⟨mergeStateActionType, .js (.mkObj [("z", .num (.fin 3))])⟩) = true := by
  exact ⟨rfl, rfl, rfl⟩

/-- Claim C3: dispatching `resetStateAction` against an object state computes
`initialState = reducer(undefined, action)`; with an array payload the result
is the state shallow-merged with `pick(initialState, payload)` — listed keys
that exist in the initial state take their initial values, all other keys
keep their current values — and with a non-array payload the result is
`initialState` itself (full reset). -/
theorem C3_resetState_resets_listed_keys
    (r : JSVal → ReduxAction → JSVal) (fs : JSFields) :
    (∀ ks : JSList,
      wrapRootReducer r (.obj fs) ⟨resetStateActionType, .js (.arr ks)⟩ =
        .ok (objSpread2 (.obj fs) (.mkObj (pickKeys
          (r .undefined ⟨resetStateActionType, .js (.arr ks)⟩) ks.toList)))) ∧
    (∀ ks : JSList, ∀ k : String,
      (fs.toList.map Prod.fst).Nodup →
      aHasKey (pickKeys (r .undefined ⟨resetStateActionType, .js (.arr ks)⟩) ks.toList) k = false →
      aLookup (objSpread2 (.obj fs) (.mkObj (pickKeys
        (r .undefined ⟨resetStateActionType, .js (.arr ks)⟩) ks.toList))).objFields k =
        aLookup fs.toList k) ∧
    (∀ ks : JSList, ∀ k : String, ∀ v : JSVal,
      ((pickKeys (r .undefined ⟨resetStateActionType, .js (.arr ks)⟩) ks.toList).map
        Prod.fst).Nodup →
      (k, v) ∈ pickKeys (r .undefined ⟨resetStateActionType, .js (.arr ks)⟩) ks.toList →
      aLookup (objSpread2 (.obj fs) (.mkObj (pickKeys
        (r .undefined ⟨resetStateActionType, .js (.arr ks)⟩) ks.toList))).objFields k = some v) ∧
    (∀ v : JSVal, ActionPayload.isArray (.js v) = false →
      wrapRootReducer r (.obj fs) ⟨resetStateActionType, .js v⟩ =
        .ok (r .undefined ⟨resetStateActionType, .js v⟩)) := by
  have hms : (resetStateActionType == mergeStateActionType) = false := by decide
  have hst : (resetStateActionType == setStateActionType) = false := by decide
  have hobjFields : ∀ P : List (String × JSVal),
      (objSpread2 (.obj fs) (.mkObj P)).objFields =
        P.foldl (fun acc kv => aSet acc kv.1 kv.2) (spreadInto [] (.obj fs)) := by
    intro P
    simp [objSpread2, JSVal.objFields, JSFields.toList_ofList, spreadInto,
      JSVal.spreadEntries, JSVal.mkObj]
  refine ⟨?_, ?_, ?_, ?_⟩
  · intro ks
    simp [wrapRootReducer, hms, hst, stateGuardFails_obj, ActionPayload.isArray, jsOr_obj]
  · intro ks k hnd hnk
    have hbase : spreadInto [] (.obj fs) = fs.toList := by
      have := foldl_aSet_fresh fs.toList [] hnd (fun k _ => rfl)
      simpa [spreadInto, JSVal.spreadEntries] using this
    rw [hobjFields, foldl_aSet_lookup_skip _ _ _ hnk, hbase]
  · intro ks k v hnd hmem
    rw [hobjFields, foldl_aSet_lookup_mem _ _ _ _ hnd hmem]
  · intro v hv
    simp [wrapRootReducer, hms, hst, stateGuardFails_obj, hv]

def resetTestReducer : JSVal → ReduxAction → JSVal :=
  fun _ _ => .mkObj [("x", .num (.fin 1)), ("y", .num (.fin 2))]

theorem C3_resetState_resets_listed_keys_witness :
    wrapRootReducer resetTestReducer (.mkObj [("x", .num (.fin 99)), ("y", .num (.fin 99))])
      ⟨resetStateActionType, .js (.mkArr [.str "x"])⟩ =
      .ok (.mkObj [("x", .num (.fin 1)), ("y", .num (.fin 99))]) ∧
    aLookup (objSpread2 (.mkObj [("x", .num (.fin 99)), ("y", .num (.fin 99))])
      (.mkObj (pickKeys
        (resetTestReducer .undefined ⟨resetStateActionType, .js (.mkArr [.str "x"])⟩)
        [.str "x"]))).objFields "y" = some (.num (.fin 99)) ∧
    aLookup (objSpread2 (.mkObj [("x", .num (.fin 99)), ("y", .num (.fin 99))])
      (.mkObj (pickKeys
        (resetTestReducer .undefined ⟨resetStateActionType, .js (.mkArr [.str "x"])⟩)
        [.str "x"]))).objFields "x" = some (.num (.fin 1)) ∧
    wrapRootReducer resetTestReducer (.mkObj [("x", .num (.fin 99)), ("y", .num (.fin 99))])
      ⟨resetStateActionType, .js .undefined⟩ =
      .ok (.mkObj [("x", .num (.fin 1)), ("y", .num (.fin 2))]) := by
  have h := C3_resetState_resets_listed_keys resetTestReducer
    (JSFields.ofList [("x", .num (.fin 99)), ("y", .num (.fin 99))])
  refine ⟨(h.1 (JSList.ofList [.str "x"])).trans (by rfl), ?_, ?_, ?_⟩
  · exact h.2.1 (JSList.ofList [.str "x"]) "y" (by decide) (by rfl)
  · exact h.2.2.1 (JSList.ofList [.str "x"]) "x" (.num (.fin 1)) (by decide) (by decide)
  · exact (h.2.2.2 .undefined rfl).trans (by rfl)

/-- The claim's test reducer `v => v + 1`; every use applies it to a finite
number (JS coercion of other operand shapes is irrelevant here). -/
def jsPlusOne : JSVal → JSVal
  | .num (.fin q) => .num (.fin (q + 1))
  | _ => .num .nan

/-- The claim's test reducer `v => v * 2`. -/
def jsTimesTwo : JSVal → JSVal
  | .num (.fin q) => .num (.fin (q * 2))
  | _ => .num .nan

def multiReduceAction (ps : List MRPair) : ReduxAction :=
  ⟨multiReduceStateActionType, .pairs ps⟩

/-- Claim C4: `multiReduceStateAction` applies its `{path, reducer}` pairs as
an ordered fold — dispatching `ps₁ ++ ps₂` equals dispatching `ps₁` and then
dispatching `ps₂` against the intermediate state — and on the claim's example
`[{path:['x'], v=>v+1}, {path:['x'], v=>v*2}]` against `{x:1}` it yields
`{x:4}`, not the `{x:2}`/`{x:2}…` that independent application to the
original state would give. -/
theorem C4_multiReduce_sequential_fold (r : JSVal → ReduxAction → JSVal)
    (state : JSVal) (ps₁ ps₂ : List MRPair) :
    wrapRootReducer r state (multiReduceAction (ps₁ ++ ps₂)) =
      (wrapRootReducer r state (multiReduceAction ps₁)).bind
        (fun s₁ => wrapRootReducer r s₁ (multiReduceAction ps₂)) ∧
    wrapRootReducer r (.mkObj [("x", .num (.fin 1))])
      (multiReduceAction [⟨["x"], jsPlusOne⟩, ⟨["x"], jsTimesTwo⟩]) =
      .ok (.mkObj [("x", .num (.fin 4))]) := by
  have h1 : (multiReduceStateActionType == mergeStateActionType) = false := by decide
  have h2 : (multiReduceStateActionType == setStateActionType) = false := by decide
  have h3 : (multiReduceStateActionType == resetStateActionType) = false := by decide
  constructor
  · simp [wrapRootReducer, multiReduceAction, h1, h2, h3, Except.bind, List.foldl_append]
  · rfl

/-!
### State persistence (src/lb/statePersistor/sagas.tsx)

The load phase suspends on file existence, file read and JSON parse; these
effects are passed in as values (`fileExists`, and the parse outcome
`parsed : Option JSVal`, `none` meaning `JSON.parse` threw).  Dispatched
actions (`put` effects) are collected in order.
-/

def whitelistOfPartsOfStateToPersist : List (List String) :=
  [["projects", "listOfPaths"]]

/-- Actions `put` by the persistence sagas. -/
inductive LBAction where
  | bootstrap
  | setState (v : JSVal)
deriving DecidableEq

/-- Modelled from the spec: the helper `spreadPaths(paths, source, target)`
(`$src/shared/utils/spreadPaths`, code of this repository that is not under
src/) — "for each whitelisted path, overlay the corresponding value from the
loaded JSON onto the in-memory state at that path". -/
def spreadPaths (paths : List (List String)) (source target : JSVal) : JSVal :=
  paths.foldl (fun acc p => JSVal.updatePath p (fun _ => source.getPath p) acc) target

structure LoadResult where
  actions : List LBAction
  parseErrorLogged : Bool
deriving DecidableEq

/-- `_loadState`, with the `select`ed current state `oldState`.  Returning a
`LoadResult` (total, no `Except`) models that a parse failure is caught:
it is logged and the saga proceeds to bootstrap without throwing. -/
def loadState (fileExists : Bool) (parsed : Option JSVal) (oldState : JSVal) :
    LoadResult :=
  if !fileExists then { actions := [.bootstrap], parseErrorLogged := false }
  else
    match parsed with
    | none => { actions := [.bootstrap], parseErrorLogged := true }
    | some jsonData =>
      let newState := spreadPaths whitelistOfPartsOfStateToPersist jsonData oldState
      { actions := [.setState newState, .bootstrap], parseErrorLogged := false }

/-- Claim C5: with no persistence file, load emits only the bootstrap action;
with unparsable contents it logs the error and proceeds to bootstrap without
throwing; with parsed JSON it emits exactly one `setStateAction` carrying the
current state with each whitelisted path overlaid from the JSON, followed by
bootstrap.  The last conjunct instantiates the spec's example
(`{"projects":{"listOfPaths":["/a"]}}`). -/
theorem C5_loadState_phases (parsed : Option JSVal) (oldState j : JSVal) :
    loadState false parsed oldState = { actions := [.bootstrap], parseErrorLogged := false } ∧
    loadState true none oldState = { actions := [.bootstrap], parseErrorLogged := true } ∧
    loadState true (some j) oldState =
      { actions := [.setState (spreadPaths whitelistOfPartsOfStateToPersist j oldState),
                    .bootstrap],
        parseErrorLogged := false } ∧
    loadState true
      (some (.mkObj [("projects", .mkObj [("listOfPaths", .mkArr [.str "/a"])])]))
      (.mkObj [("projects", .mkObj [("listOfPaths", .mkArr []), ("other", .num (.fin 5))]),
               ("ui", .num (.fin 1))]) =
      { actions := [.setState (.mkObj
          [("projects", .mkObj [("listOfPaths", .mkArr [.str "/a"]),
                                ("other", .num (.fin 5))]),
           ("ui", .num (.fin 1))]), .bootstrap],
        parseErrorLogged := false } := by
  refine ⟨rfl, rfl, rfl, ?_⟩
  rfl

/-!
### Watch phase (`persistStateChanges`)

`takeLatest('*', handler)` with `yield delay(2)` has, per redux-saga, the
cancellation semantics the spec describes: a new action cancels the handler
task forked for the previous one.  This is modelled as a discrete-time
machine: `pending = some n` means a forked handler will run its
post-`delay` body (`select` → whitelist projection → `deepEqual` diff →
persist) after `n` more clock ticks; a dispatched action replaces any
pending handler.  `writes` logs the states handed to `persistNewState`.
-/

def debounceDelay : Nat := 2

structure WatchM where
  store : JSVal
  lastState : JSVal
  pending : Option Nat
  writes : List JSVal
deriving DecidableEq

inductive WatchEv where
  | action (newStoreState : JSVal)
  | tick
deriving DecidableEq

/-- `pickPathsFromObject(yield select(), whitelistOfPartsOfStateToPersist)`. -/
def persistedProjection (v : JSVal) : JSVal :=
  pickPaths whitelistOfPartsOfStateToPersist v

def stepWatch (m : WatchM) : WatchEv → WatchM
  | .action s => { m with store := s, pending := some debounceDelay }
  | .tick =>
    match m.pending with
    | none => m
    | some 0 => { m with pending := none }
    | some 1 =>
      let newState := persistedProjection m.store
      if m.lastState = newState then { m with pending := none }
      else
        { m with pending := none, lastState := newState, writes := m.writes ++ [newState] }
    | some (n + 2) => { m with pending := some (n + 1) }

def runWatch (m : WatchM) (evs : List WatchEv) : WatchM :=
  evs.foldl stepWatch m

/-- The forked watcher starts with `lastState` = the projection of the state
selected at fork time, and no pending handler. -/
def initWatch (store0 : JSVal) : WatchM :=
  { store := store0, lastState := persistedProjection store0, pending := none, writes := [] }

def ticks (n : Nat) : List WatchEv :=
  List.replicate n .tick

/-- A burst: each `(s, g)` is an action (after which the store reads `s`)
followed by `g` clock ticks. -/
def burstTrace (l : List (JSVal × Nat)) : List WatchEv :=
  (l.map (fun sg => WatchEv.action sg.1 :: ticks sg.2)).flatten

theorem runWatch_append (m : WatchM) (a b : List WatchEv) :
    runWatch m (a ++ b) = runWatch (runWatch m a) b :=
  List.foldl_append ..

theorem runWatch_chunk_noFire (m : WatchM) (s : JSVal) (g : Nat) (hg : g < debounceDelay) :
    runWatch m (WatchEv.action s :: ticks g) =
      { m with store := s, pending := some (debounceDelay - g) } := by
  have hg2 : g < 2 := hg
  have : g = 0 ∨ g = 1 := by omega
  rcases this with rfl | rfl <;> rfl

theorem burst_preserves (l : List (JSVal × Nat)) (m : WatchM)
    (hl : ∀ x ∈ l, x.2 < debounceDelay) :
    (runWatch m (burstTrace l)).writes = m.writes ∧
    (runWatch m (burstTrace l)).lastState = m.lastState := by
  induction l generalizing m with
  | nil => exact ⟨rfl, rfl⟩
  | cons sg rest ih =>
    obtain ⟨s, g⟩ := sg
    have hg : g < debounceDelay := hl (s, g) (by simp)
    have hstep : burstTrace ((s, g) :: rest) =
        (WatchEv.action s :: ticks g) ++ burstTrace rest := by
      simp [burstTrace]
    rw [hstep, runWatch_append, runWatch_chunk_noFire m s g hg]
    exact ih _ (fun x hx => hl x (by simp [hx]))

theorem runWatch_fire (m : WatchM) (s : JSVal) :
    runWatch m (WatchEv.action s :: ticks debounceDelay) =
      if m.lastState = persistedProjection s then
        { m with store := s, pending := none }
      else
        { m with store := s, pending := none, lastState := persistedProjection s,
                 writes := m.writes ++ [persistedProjection s] } := by
  by_cases h : m.lastState = persistedProjection s
  · simp [runWatch, debounceDelay, ticks, List.replicate, stepWatch, h]
  · simp [runWatch, debounceDelay, ticks, List.replicate, stepWatch, h]

/-- Claim C6: for any burst of actions each followed by fewer ticks than the
debounce delay, then a final action and a full quiet period: the pending
handler of every superseded action never runs, so at most one write happens;
it happens exactly when the whitelisted projection of the latest state
differs from the last persisted projection, and carries that latest
projection (which also becomes the new snapshot); otherwise nothing is
written and the snapshot is unchanged. -/
theorem C6_watch_debounce_latest_wins (m : WatchM) (l : List (JSVal × Nat)) (s : JSVal)
    (hl : ∀ x ∈ l, x.2 < debounceDelay) :
    (persistedProjection s ≠ m.lastState →
      (runWatch m (burstTrace l ++ WatchEv.action s :: ticks debounceDelay)).writes =
        m.writes ++ [persistedProjection s] ∧
      (runWatch m (burstTrace l ++ WatchEv.action s :: ticks debounceDelay)).lastState =
        persistedProjection s) ∧
    (persistedProjection s = m.lastState →
      (runWatch m (burstTrace l ++ WatchEv.action s :: ticks debounceDelay)).writes =
        m.writes ∧
      (runWatch m (burstTrace l ++ WatchEv.action s :: ticks debounceDelay)).lastState =
        m.lastState) := by
  rw [runWatch_append]
  obtain ⟨hw, hls⟩ := burst_preserves l m hl
  rw [runWatch_fire]
  constructor
  · intro hne
    rw [if_neg (by rw [hls]; exact fun hc => hne hc.symm)]
    exact ⟨by simp [hw], rfl⟩
  · intro heq
    rw [if_pos (by rw [hls]; exact heq.symm)]
    exact ⟨hw, hls⟩

def watchS0 : JSVal := .mkObj [("projects", .mkObj [("listOfPaths", .mkArr [])])]
def watchSA : JSVal := .mkObj [("projects", .mkObj [("listOfPaths", .mkArr [.str "/a"])])]
def watchSB : JSVal := .mkObj [("projects", .mkObj [("listOfPaths", .mkArr [.str "/b"])])]

theorem C6_watch_debounce_latest_wins_witness :
    (runWatch (initWatch watchS0)
      (burstTrace [(watchSA, 1)] ++ WatchEv.action watchSB :: ticks debounceDelay)).writes =
      [.mkObj [("projects", .mkObj [("listOfPaths", .mkArr [.str "/b"])])]] ∧
    (runWatch (initWatch watchS0)
      (burstTrace [(watchSA, 1)] ++ WatchEv.action watchS0 :: ticks debounceDelay)).writes =
      [] := by
  constructor
  · have h := (C6_watch_debounce_latest_wins (initWatch watchS0) [(watchSA, 1)] watchSB
      (by decide)).1 (by decide)
    exact h.1.trans (by decide)
  · have h := (C6_watch_debounce_latest_wins (initWatch watchS0) [(watchSA, 1)] watchS0
      (by decide)).2 (by decide)
    exact h.1

/-!
### Prop types (theatre/core/src/propTypes/index.ts)

Constructors take the development flag (`process.env.NODE_ENV !== 'production'`)
as an explicit `dev : Bool`.  An `opts` argument at runtime is either absent,
a well-typed options object (whose function-valued fields are genuine
functions), or a raw JS value (covering `null`, primitives and plain-data
objects).  Sanitizers are `(value: unknown) => T | undefined`, so rejection
is the value `undefined`.
-/

def SanitizerFn : Type := JSVal → JSVal

def InterpolatorFn : Type := JSVal → JSVal → JSVal → JSVal

inductive OptsArg (σ : Type) where
  | undefined
  | obj (o : σ)
  | raw (v : JSVal)

/-- JS numeric helpers for the nudge/interpolation formulas.  Coercion of
non-number operands and non-finite arithmetic are collapsed to `NaN`; every
evaluated use involves finite numbers. -/
def jsAdd (a b : JSVal) : JSVal :=
  match a, b with
  | .num (.fin x), .num (.fin y) => .num (.fin (x + y))
  | _, _ => .num .nan

def jsSub (a b : JSVal) : JSVal :=
  match a, b with
  | .num (.fin x), .num (.fin y) => .num (.fin (x - y))
  | _, _ => .num .nan

def jsMul (a b : JSVal) : JSVal :=
  match a, b with
  | .num (.fin x), .num (.fin y) => .num (.fin (x * y))
  | _, _ => .num .nan

def isJsArray : JSVal → Bool
  | .arr _ => true
  | _ => false

def jsArrayElems : JSVal → List JSVal
  | .arr es => es.toList
  | _ => []

def jsIndex (v : JSVal) (i : Nat) : JSVal :=
  (jsArrayElems v).getD i .undefined

/-- `typeof n === 'number' && !isNaN(n)` (this check admits infinities). -/
def isNumberNotNaN : JSVal → Bool
  | .num .nan => false
  | .num _ => true
  | _ => false

/-- JS `>=` on two numbers (the only use compares range elements, which the
preceding check guarantees to be non-`NaN` numbers). -/
def jsNumGe : JSNum → JSNum → Bool
  | .fin a, .fin b => a ≥ b
  | .nan, _ => false
  | _, .nan => false
  | .posInf, _ => true
  | _, .posInf => false
  | .negInf, .negInf => true
  | .negInf, .fin _ => false
  | .fin _, .negInf => true

def jsGeNum (a b : JSVal) : Bool :=
  match a, b with
  | .num x, .num y => jsNumGe x y
  | _, _ => false

/-- `a ?? b` for a possibly absent field. -/
def jsCoalesce (a : Option JSVal) (b : JSVal) : JSVal :=
  match a with
  | some v => if v = .undefined || v = .null then b else v
  | none => b

/-- Whitespace for the purposes of `label.trim()`; the plain ASCII whitespace
characters (JS `trim` also strips rarer Unicode spaces, which no label in
this development contains). -/
def isJsWhitespace (c : Char) : Bool :=
  c = ' ' || c = '\t' || c = '\n' || c = '\r'

/-- `label.trim()`. -/
def jsStrTrim (s : String) : String :=
  String.mk (((s.toList.dropWhile isJsWhitespace).reverse.dropWhile isJsWhitespace).reverse)

/-- The label checks of `validateCommonOpts` (given the value of an own
`label` property, if present). -/
def validateLabel : Option JSVal → Except String Unit
  | none => .ok ()
  | some l =>
    match l with
    | .str s =>
      if (jsStrTrim s).length ≠ s.length then
        .error "opts.label should not start or end with whitespace"
      else if s.length = 0 then
        .error "opts.label should not be an empty string"
      else .ok ()
    | _ => .error "opts.label should be a string"

/-- `validateCommonOpts`: development-only; `undefined` opts pass, non-object
opts throw, otherwise the `label` property is validated. -/
def validateCommonOpts {σ : Type} (getLabel : σ → Option JSVal) (dev : Bool)
    (opts : OptsArg σ) : Except String Unit :=
  if !dev then .ok ()
  else
    match opts with
    | .undefined => .ok ()
    | .obj o => validateLabel (getLabel o)
    | .raw v =>
      if !(v.typeof == "object" && v != .null) then
        .error "opts must either be undefined or an object"
      else validateLabel (aLookup v.objFields "label")

/-!
#### `number`
-/

/-- Arguments handed to a number nudge function; the source passes the whole
config, of which only `range` and `nudgeMultiplier` are ever read. -/
structure NudgeArgs where
  deltaX : JSVal
  deltaFraction : JSVal
  magnitude : JSVal
  configRange : Option JSVal
  configNudgeMultiplier : JSVal

def NumberNudgeFn : Type := NudgeArgs → JSVal

/-- `defaultNumberNudgeFn`: range-aware when a range is set, pixel-direct
otherwise. -/
def defaultNumberNudgeFn : NumberNudgeFn := fun a =>
  match a.configRange with
  | some r =>
    jsMul (jsMul (jsMul a.deltaFraction (jsSub (jsIndex r 1) (jsIndex r 0))) a.magnitude)
      a.configNudgeMultiplier
  | none => jsMul (jsMul a.deltaX a.magnitude) a.configNudgeMultiplier

structure NumberOpts where
  label : Option JSVal := none
  range : Option JSVal := none
  nudgeMultiplier : Option JSVal := none
  nudgeFn : Option NumberNudgeFn := none
  sanitize : Option SanitizerFn := none
  interpolate : Option InterpolatorFn := none

def numberOptsLabel : OptsArg NumberOpts → Option JSVal
  | .undefined => none
  | .obj o => o.label
  | .raw v => aLookup v.objFields "label"

def numberOptsRange : OptsArg NumberOpts → Option JSVal
  | .undefined => none
  | .obj o => o.range
  | .raw v => aLookup v.objFields "range"

def numberOptsNudgeMultiplier : OptsArg NumberOpts → Option JSVal
  | .undefined => none
  | .obj o => o.nudgeMultiplier
  | .raw v => aLookup v.objFields "nudgeMultiplier"

def numberOptsNudgeFn : OptsArg NumberOpts → Option NumberNudgeFn
  | .obj o => o.nudgeFn
  | _ => none

def numberOptsNudgeFnPresent : OptsArg NumberOpts → Bool
  | .undefined => false
  | .obj o => o.nudgeFn.isSome
  | .raw v => aHasKey v.objFields "nudgeFn"

/-- Whether the present `nudgeFn` property is a function; raw JS values are
never functions. -/
def numberOptsNudgeFnIsFunction : OptsArg NumberOpts → Bool
  | .obj o => o.nudgeFn.isSome
  | _ => false

def numberOptsSanitize : OptsArg NumberOpts → Option SanitizerFn
  | .obj o => o.sanitize
  | _ => none

/-- `!opts?.sanitize` — absent, or a falsy field value (a present function is
always truthy). -/
def numberOptsSanitizeFalsy : OptsArg NumberOpts → Bool
  | .undefined => true
  | .obj o => o.sanitize.isNone
  | .raw v => !(aGet v.objFields "sanitize").truthy

def numberOptsInterpolate : OptsArg NumberOpts → Option InterpolatorFn
  | .obj o => o.interpolate
  | _ => none

/-- `typeof opts === 'object' && opts !== null`, the gate for the
range/nudgeMultiplier/nudgeFn checks. -/
def numberOptsGate : OptsArg NumberOpts → Bool
  | .undefined => false
  | .obj _ => true
  | .raw v => v.typeof == "object" && v != .null

def _sanitizeNumber : SanitizerFn := fun v =>
  if v.isFiniteNumber then v else .undefined

def _interpolateNumber : InterpolatorFn := fun left right progression =>
  jsAdd left (jsMul progression (jsSub right left))

/-- The sanitizer of a number config: the default when `!opts?.sanitize`,
otherwise the custom sanitizer composed after the default numeric check.
A raw, truthy, non-function `sanitize` field would make JS throw a
`TypeError` at call time; that corner (unreachable in any claim) yields
`undefined` here. -/
def numberSanitize (opts : OptsArg NumberOpts) : SanitizerFn :=
  if numberOptsSanitizeFalsy opts then _sanitizeNumber
  else fun val =>
    let n := _sanitizeNumber val
    if n.typeof == "number" then
      match numberOptsSanitize opts with
      | some f => f n
      | none => .undefined
    else .undefined

def numberRangeCheck (opts : OptsArg NumberOpts) : Except String Unit :=
  match numberOptsRange opts with
  | none => .ok ()
  | some r =>
    if !isJsArray r then
      .error "opts.range in t.number must be a tuple of two numbers"
    else if (jsArrayElems r).length ≠ 2 then
      .error "opts.range in t.number must have two elements"
    else if !((jsArrayElems r).all isNumberNotNaN) then
      .error "opts.range in t.number must be a tuple of two numbers"
    else if jsGeNum (jsIndex r 0) (jsIndex r 1) then
      .error "opts.range first element in t.number must be smaller than the second"
    else .ok ()

def numberNudgeMultiplierCheck (opts : OptsArg NumberOpts) : Except String Unit :=
  match numberOptsNudgeMultiplier opts with
  | none => .ok ()
  | some nm =>
    if !nm.isFiniteNumber then
      .error "opts.nudgeMultiplier in t.number must be a finite number"
    else .ok ()

def numberNudgeFnCheck (opts : OptsArg NumberOpts) : Except String Unit :=
  if numberOptsNudgeFnPresent opts && !numberOptsNudgeFnIsFunction opts then
    .error "opts.nudgeFn in t.number must be a function"
  else .ok ()

/-- The development-mode block of `number`. -/
def numberDevChecks (dev : Bool) (defaultValue : JSVal) (opts : OptsArg NumberOpts) :
    Except String Unit :=
  if !dev then .ok ()
  else
    match validateCommonOpts NumberOpts.label dev opts with
    | .error e => .error e
    | .ok _ =>
      if !defaultValue.isFiniteNumber then
        .error "argument defaultValue in t.number(defaultValue) must be a number"
      else if numberOptsGate opts then
        match numberRangeCheck opts with
        | .error e => .error e
        | .ok _ =>
          match numberNudgeMultiplierCheck opts with
          | .error e => .error e
          | .ok _ => numberNudgeFnCheck opts
      else .ok ()

structure NumberConfig where
  default : JSVal
  label : Option JSVal
  range : Option JSVal
  nudgeFn : NumberNudgeFn
  nudgeMultiplier : JSVal
  isScalar : Bool
  sanitize : SanitizerFn
  interpolate : InterpolatorFn

/-- The object literal `number` returns.  The `...opts` spread precedes the
explicit `label`/`nudgeFn`/`nudgeMultiplier`/`isScalar`/`sanitize`/
`interpolate` fields (so those always take the computed values), while
`range` (and, for a raw opts object, a stray `default` property) survive from
the spread. -/
def mkNumberConfig (defaultValue : JSVal) (opts : OptsArg NumberOpts) : NumberConfig :=
  { default :=
      (match opts with
       | .raw v => (aLookup v.objFields "default").getD defaultValue
       | _ => defaultValue)
    label := numberOptsLabel opts
    range := numberOptsRange opts
    nudgeFn := (numberOptsNudgeFn opts).getD defaultNumberNudgeFn
    nudgeMultiplier :=
      (match numberOptsNudgeMultiplier opts with
       | some nm => if nm.typeof == "number" then nm else .num (.fin 1)
       | none => .num (.fin 1))
    isScalar := true
    sanitize := numberSanitize opts
    interpolate := (numberOptsInterpolate opts).getD _interpolateNumber }

def number (dev : Bool) (defaultValue : JSVal) (opts : OptsArg NumberOpts) :
    Except String NumberConfig :=
  match numberDevChecks dev defaultValue opts with
  | .error e => .error e
  | .ok _ => .ok (mkNumberConfig defaultValue opts)

/-!
#### `boolean`, `string`, `rgba`, `stringLiteral`
-/

structure ScalarOpts where
  label : Option JSVal := none
  sanitize : Option SanitizerFn := none
  interpolate : Option InterpolatorFn := none

def scalarOptsLabel : OptsArg ScalarOpts → Option JSVal
  | .undefined => none
  | .obj o => o.label
  | .raw v => aLookup v.objFields "label"

def scalarOptsSanitize : OptsArg ScalarOpts → Option SanitizerFn
  | .obj o => o.sanitize
  | _ => none

/-- `opts?.sanitize` truthiness (see `numberOptsSanitizeFalsy`). -/
def scalarOptsSanitizeFalsy : OptsArg ScalarOpts → Bool
  | .undefined => true
  | .obj o => o.sanitize.isNone
  | .raw v => !(aGet v.objFields "sanitize").truthy

def scalarOptsInterpolate : OptsArg ScalarOpts → Option InterpolatorFn
  | .obj o => o.interpolate
  | _ => none

def leftInterpolate : InterpolatorFn := fun left _ _ => left

def _sanitizeBoolean : SanitizerFn := fun v =>
  if v.typeof == "boolean" then v else .undefined

structure BooleanConfig where
  default : JSVal
  label : Option JSVal
  sanitize : SanitizerFn
  interpolate : InterpolatorFn

def booleanDevChecks (dev : Bool) (defaultValue : JSVal) (opts : OptsArg ScalarOpts) :
    Except String Unit :=
  if !dev then .ok ()
  else
    match validateCommonOpts ScalarOpts.label dev opts with
    | .error e => .error e
    | .ok _ =>
      if defaultValue.typeof != "boolean" then
        .error "defaultValue in t.boolean(defaultValue) must be a boolean"
      else .ok ()

/-- `boolean`: note the returned config always uses `_sanitizeBoolean` and
`leftInterpolate` (the `opts.sanitize`/`opts.interpolate` fields are accepted
by the signature but never read). -/
def boolean (dev : Bool) (defaultValue : JSVal) (opts : OptsArg ScalarOpts) :
    Except String BooleanConfig :=
  match booleanDevChecks dev defaultValue opts with
  | .error e => .error e
  | .ok _ =>
    .ok { default := defaultValue
          label := scalarOptsLabel opts
          sanitize := _sanitizeBoolean
          interpolate := leftInterpolate }

structure StringConfig where
  default : JSVal
  label : Option JSVal
  sanitize : SanitizerFn
  interpolate : InterpolatorFn

def stringDevChecks (dev : Bool) (defaultValue : JSVal) (opts : OptsArg ScalarOpts) :
    Except String Unit :=
  if !dev then .ok ()
  else
    match validateCommonOpts ScalarOpts.label dev opts with
    | .error e => .error e
    | .ok _ =>
      if defaultValue.typeof != "string" then
        .error "defaultValue in t.string(defaultValue) must be a string"
      else .ok ()

/-- The sanitize method of a string config:
`if (opts?.sanitize) return opts.sanitize(value)` else the default string
check.  (A raw, truthy, non-function `sanitize` would throw in JS at call
time; that corner, unreachable in any claim, yields `undefined` here.) -/
def stringSanitize (opts : OptsArg ScalarOpts) : SanitizerFn := fun value =>
  if scalarOptsSanitizeFalsy opts then
    if value.typeof == "string" then value else .undefined
  else
    match scalarOptsSanitize opts with
    | some f => f value
    | none => .undefined

def string (dev : Bool) (defaultValue : JSVal) (opts : OptsArg ScalarOpts) :
    Except String StringConfig :=
  match stringDevChecks dev defaultValue opts with
  | .error e => .error e
  | .ok _ =>
    .ok { default := defaultValue
          label := scalarOptsLabel opts
          sanitize := stringSanitize opts
          interpolate := (scalarOptsInterpolate opts).getD leftInterpolate }

/-- `_sanitizeRgba`: `return val as Rgba` — the identity, no clamping and no
validation (the source carries `FIXME` / `TODO: clamp components to allowed
range` comments). -/
def _sanitizeRgba : SanitizerFn := fun v => v

structure RgbaConfig where
  default : JSVal
  label : Option JSVal
  sanitize : SanitizerFn

/-- `rgba`: its development block runs `validateCommonOpts` only (the source
notes `FIXME: validate default value`); the returned config's sanitize is
always `_sanitizeRgba` (a supplied `opts.sanitize` is never read).  The
`interpolate` field routes through the color module
(`@theatre/shared/utils/color`, not under src/ and floating-point); no claim
depends on it, so the model does not carry it. -/
def rgba (dev : Bool) (defaultValue : JSVal) (opts : OptsArg ScalarOpts) :
    Except String RgbaConfig :=
  match (if dev then validateCommonOpts ScalarOpts.label dev opts else .ok ()) with
  | .error e => .error e
  | .ok _ =>
    .ok { default := defaultValue
          label := scalarOptsLabel opts
          sanitize := _sanitizeRgba }

structure SLOpts where
  as : Option JSVal := none
  label : Option JSVal := none

def slOptsAs : OptsArg SLOpts → Option JSVal
  | .undefined => none
  | .obj o => o.as
  | .raw v => aLookup v.objFields "as"

def slOptsLabel : OptsArg SLOpts → Option JSVal
  | .undefined => none
  | .obj o => o.label
  | .raw v => aLookup v.objFields "label"

structure StringLiteralConfig where
  default : JSVal
  options : List (String × String)
  as : JSVal
  label : Option JSVal
  sanitize : SanitizerFn
  interpolate : InterpolatorFn

/-- `stringLiteral(defaultValue, options, opts)`: the source body is a single
return statement — it contains no development-mode block at all, so nothing
checks that `defaultValue` is a key of `options` and `validateCommonOpts` is
never called; the `dev` flag is taken (for parallelism with the other
constructors) and ignored, exactly as the source ignores
`process.env.NODE_ENV` here. -/
def stringLiteral (_dev : Bool) (defaultValue : JSVal)
    (options : List (String × String)) (opts : OptsArg SLOpts) :
    Except String StringLiteralConfig :=
  .ok { default := defaultValue
        options := options
        as := jsCoalesce (slOptsAs opts) (.str "menu")
        label := slOptsLabel opts
        sanitize := fun value =>
          match value with
          | .str s => if aHasKey options s then value else .undefined
          | _ => .undefined
        interpolate := leftInterpolate }

/-- Whether a prop-type constructor threw. -/
def constructionThrew {α : Type} (e : Except String α) : Bool :=
  match e with
  | .error _ => true
  | .ok _ => false

theorem isFiniteNumber_shape (v : JSVal) (h : v.isFiniteNumber = true) :
    ∃ q : ℤ, v = .num (.fin q) := by
  cases v with
  | num n =>
    cases n with
    | fin q => exact ⟨q, rfl⟩
    | nan => simp [JSVal.isFiniteNumber] at h
    | posInf => simp [JSVal.isFiniteNumber] at h
    | negInf => simp [JSVal.isFiniteNumber] at h
  | undefined => simp [JSVal.isFiniteNumber] at h
  | null => simp [JSVal.isFiniteNumber] at h
  | bool b => simp [JSVal.isFiniteNumber] at h
  | str s => simp [JSVal.isFiniteNumber] at h
  | obj fs => simp [JSVal.isFiniteNumber] at h
  | arr es => simp [JSVal.isFiniteNumber] at h

/-- Claim C7 (counterexample): in a development build,
`stringLiteral("x", {r: "Red"}, {label: " bad "})` — a default that is not a
key of the options AND a label the other constructors reject — returns a
config without throwing. -/
theorem C7_stringLiteral_never_throws_counterexample :
    constructionThrew (stringLiteral true (.str "x") [("r", "Red")]
      (.obj { as := none, label := some (.str " bad ") })) = false := rfl

/-- Claim C7 (amended): in development builds the `number`, `boolean` and
`string` constructors throw synchronously when the default does not match the
declared kind, and validate `opts` (e.g. a label with surrounding whitespace
makes `number` throw); `stringLiteral` performs no development-mode
validation at all — it returns a config for any default, options and opts;
in production builds every constructor returns a config without any check. -/
theorem C7_dev_validation_amended :
    (∀ (d : JSVal) (opts : OptsArg NumberOpts), d.isFiniteNumber = false →
      constructionThrew (number true d opts) = true) ∧
    (∀ (d : JSVal) (opts : OptsArg ScalarOpts), (d.typeof == "boolean") = false →
      constructionThrew (boolean true d opts) = true) ∧
    (∀ (d : JSVal) (opts : OptsArg ScalarOpts), (d.typeof == "string") = false →
      constructionThrew (string true d opts) = true) ∧
    (∀ d : JSVal,
      constructionThrew (number true d (.obj { label := some (.str " bad ") })) = true) ∧
    (∀ (d : JSVal) (options : List (String × String)) (opts : OptsArg SLOpts),
      constructionThrew (stringLiteral true d options opts) = false) ∧
    (∀ (d : JSVal) (nopts : OptsArg NumberOpts) (sopts : OptsArg ScalarOpts)
      (options : List (String × String)) (slopts : OptsArg SLOpts),
      constructionThrew (number false d nopts) = false ∧
      constructionThrew (boolean false d sopts) = false ∧
      constructionThrew (string false d sopts) = false ∧
      constructionThrew (stringLiteral false d options slopts) = false) := by
  refine ⟨?_, ?_, ?_, ?_, ?_, ?_⟩
  · intro d opts hd
    cases h : validateCommonOpts NumberOpts.label true opts with
    | error e => simp [number, numberDevChecks, h, constructionThrew]
    | ok u => simp [number, numberDevChecks, h, hd, constructionThrew]
  · intro d opts hd
    cases h : validateCommonOpts ScalarOpts.label true opts with
    | error e => simp [boolean, booleanDevChecks, h, constructionThrew]
    | ok u =>
      have hd' : ¬ d.typeof = "boolean" := by simpa using hd
      simp [boolean, booleanDevChecks, h, hd', constructionThrew]
  · intro d opts hd
    cases h : validateCommonOpts ScalarOpts.label true opts with
    | error e => simp [string, stringDevChecks, h, constructionThrew]
    | ok u =>
      have hd' : ¬ d.typeof = "string" := by simpa using hd
      simp [string, stringDevChecks, h, hd', constructionThrew]
  · intro d
    rfl
  · intro d options opts
    rfl
  · intro d nopts sopts options slopts
    exact ⟨rfl, rfl, rfl, rfl⟩

theorem C7_dev_validation_amended_witness :
    constructionThrew (number true (.str "a") .undefined) = true ∧
    constructionThrew (boolean true (.num (.fin 0)) .undefined) = true ∧
    constructionThrew (string true (.num (.fin 0)) .undefined) = true ∧
    constructionThrew (number true (.num (.fin 7))
      (.obj { label := some (.str " bad ") })) = true ∧
    constructionThrew (stringLiteral true (.str "nope") [] .undefined) = false ∧
    constructionThrew (number false (.str "a") .undefined) = false := by
  obtain ⟨h1, h2, h3, h4, h5, h6⟩ := C7_dev_validation_amended
  exact ⟨h1 (.str "a") .undefined rfl, h2 (.num (.fin 0)) .undefined rfl,
    h3 (.num (.fin 0)) .undefined rfl, h4 (.num (.fin 7)),
    h5 (.str "nope") [] .undefined, (h6 (.str "a") .undefined .undefined [] .undefined).1⟩

/-- Claim C8: the sanitize of a successfully constructed `number` config
rejects (returns `undefined` for) every value that is not a finite number,
and when a custom sanitizer is supplied it runs only after the default
numeric check succeeds, its result becoming the config's sanitize result. -/
theorem C8_number_sanitize_composition (dev : Bool) (d : JSVal)
    (opts : OptsArg NumberOpts) (cfg : NumberConfig)
    (hok : number dev d opts = .ok cfg) :
    (∀ v : JSVal, v.isFiniteNumber = false → cfg.sanitize v = .undefined) ∧
    (∀ f : SanitizerFn, numberOptsSanitize opts = some f →
      ∀ v : JSVal, v.isFiniteNumber = true → cfg.sanitize v = f v) := by
  have hcfg : cfg.sanitize = numberSanitize opts := by
    cases h : numberDevChecks dev d opts with
    | error e => rw [number, h] at hok; cases hok
    | ok u =>
      rw [number, h] at hok
      injection hok with h2
      rw [← h2]
      rfl
  rw [hcfg]
  constructor
  · intro v hv
    unfold numberSanitize
    by_cases hf : numberOptsSanitizeFalsy opts = true
    · simp [hf, _sanitizeNumber, hv]
    · simp only [Bool.not_eq_true] at hf
      simp [hf, _sanitizeNumber, hv, JSVal.typeof]
  · intro f hf v hv
    have hfalsy : numberOptsSanitizeFalsy opts = false := by
      cases opts with
      | undefined => simp [numberOptsSanitize] at hf
      | raw v' => simp [numberOptsSanitize] at hf
      | obj o =>
        simp only [numberOptsSanitize] at hf
        simp [numberOptsSanitizeFalsy, hf]
    obtain ⟨q, rfl⟩ := isFiniteNumber_shape v hv
    simp [numberSanitize, hfalsy, _sanitizeNumber, JSVal.isFiniteNumber, JSVal.typeof, hf]

def numWitnessSanitizer : SanitizerFn := fun _ => .bool true

def numWitnessOpts : OptsArg NumberOpts := .obj { sanitize := some numWitnessSanitizer }

theorem C8_number_sanitize_composition_witness :
    (mkNumberConfig (.num (.fin 0)) numWitnessOpts).sanitize (.str "a") = .undefined ∧
    (mkNumberConfig (.num (.fin 0)) numWitnessOpts).sanitize (.num (.fin 3)) = .bool true := by
  have h := C8_number_sanitize_composition false (.num (.fin 0)) numWitnessOpts
    (mkNumberConfig (.num (.fin 0)) numWitnessOpts) rfl
  exact ⟨h.1 (.str "a") rfl, h.2 numWitnessSanitizer rfl (.num (.fin 3)) rfl⟩

/-- Claim C9: the sanitize of a config returned by `rgba` is the identity on
every input — `_sanitizeRgba` returns its argument unchanged, with no
clamping of `r`, `g`, `b`, `alpha` and no rejection of non-conforming
values. -/
theorem C9_rgba_sanitize_identity (dev : Bool) (d : JSVal) (opts : OptsArg ScalarOpts)
    (cfg : RgbaConfig) (hok : rgba dev d opts = .ok cfg) :
    ∀ v : JSVal, cfg.sanitize v = v := by
  intro v
  cases h : (if dev then validateCommonOpts ScalarOpts.label dev opts else .ok ()) with
  | error e => rw [rgba, h] at hok; cases hok
  | ok u =>
    rw [rgba, h] at hok
    injection hok with h2
    rw [← h2]
    rfl

theorem C9_rgba_sanitize_identity_witness :
    rgba false (.mkObj [("r", .num (.fin 1))]) .undefined =
      .ok { default := .mkObj [("r", .num (.fin 1))], label := none,
            sanitize := _sanitizeRgba } ∧
    ({ default := .mkObj [("r", .num (.fin 1))], label := none,
       sanitize := _sanitizeRgba : RgbaConfig }).sanitize (.str "not a color") =
      .str "not a color" := by
  refine ⟨rfl, ?_⟩
  exact C9_rgba_sanitize_identity false (.mkObj [("r", .num (.fin 1))]) .undefined _ rfl
    (.str "not a color")
